import Mathlib

/-!
# Verification of the Data Sweeper table-processing core

Shallow embedding of `src/app.py` (a Streamlit/pandas data-cleaning app).
A pandas `DataFrame` is modelled as a `Table`: an ordered list of column
headers (name plus a numeric-dtype flag) together with a list of rows,
each row a list of cells.  A cell is a rational number, a text value, or
the missing marker (pandas `NaN`).  Python strings that the program slices
character-by-character (file names) are modelled as `List Char`.
-/

/-- Decidable equality of `Except` results, used to evaluate the embedded
operations (which model raised exceptions as `Except.error`) on concrete
tables. -/
instance {ε α : Type} [DecidableEq ε] [DecidableEq α] : DecidableEq (Except ε α) := fun a b =>
  match a, b with
  | Except.error e, Except.error f =>
      if h : e = f then isTrue (by rw [h]) else isFalse (fun hh => h (by injection hh))
  | Except.error _, Except.ok _ => isFalse (fun hh => Except.noConfusion hh)
  | Except.ok _, Except.error _ => isFalse (fun hh => Except.noConfusion hh)
  | Except.ok x, Except.ok y =>
      if h : x = y then isTrue (by rw [h]) else isFalse (fun hh => h (by injection hh))

namespace DataSweeper

/-- A single cell of a table: numeric value, text value, or missing (`NaN`). -/
inductive Cell where
  | num (q : ℚ)
  | str (s : String)
  | missing
deriving DecidableEq, Repr

/-- A column header: its name and whether its dtype is numeric
(`df.select_dtypes(include='number')` selects exactly the numeric-dtype
columns). -/
structure Col where
  name : String
  numeric : Bool
deriving DecidableEq, Repr

/-- A pandas `DataFrame`: ordered named columns, row-major cell storage.
Invariant (from the data model): every row has `cols.length` cells and
column names are unique; theorems take these as hypotheses where needed. -/
structure Table where
  cols : List Col
  rows : List (List Cell)
deriving DecidableEq, Repr

/-- The cells of column `j`, read off the row-major storage
(out-of-range reads give `missing`, matching the all-rows-full invariant). -/
def colCells (rows : List (List Cell)) (j : ℕ) : List Cell :=
  rows.map (fun r => r.getD j Cell.missing)

/-- The numeric (non-missing) values of a column, as pandas statistics see
them: `mean`/`median`/`mode` all skip `NaN` entries. -/
def nums (cells : List Cell) : List ℚ :=
  cells.filterMap (fun c => match c with | Cell.num q => some q | _ => Option.none)

/-- `Series.fillna(v)`: a missing cell becomes `v`, others are untouched. -/
def fillCell (v : ℚ) : Cell → Cell
  | Cell.missing => Cell.num v
  | c => c

/-- `df[col].fillna(v, inplace=True)` for the column at position `j`:
every row's `j`-th cell is filled. -/
def fillAt (j : ℕ) (v : ℚ) (rows : List (List Cell)) : List (List Cell) :=
  rows.map (fun r => r.set j (fillCell v (r.getD j Cell.missing)))

/-- `Series.mean()` with the default `skipna=True`: arithmetic mean of the
present values, `NaN` (here `none`) when there are none. -/
def meanOpt (vals : List ℚ) : Option ℚ :=
  if vals = [] then Option.none else some (vals.sum / (vals.length : ℚ))

/-- `Series.median()`: sort the present values ascending; odd count takes the
middle element, even count averages the two middle ones; `NaN` when empty. -/
def medianOpt (vals : List ℚ) : Option ℚ :=
  if vals = [] then Option.none
  else
    let s := vals.insertionSort (· ≤ ·)
    let n := s.length
    if n % 2 = 1 then some (s.getD (n / 2) 0)
    else some ((s.getD (n / 2 - 1) 0 + s.getD (n / 2) 0) / 2)

/-- Tie-break of `Series.mode()[0]`: pandas returns the modes sorted
ascending, so index `0` picks, among two candidates, the strictly more
frequent one, and on equal frequency the smaller one. -/
def betterMode (vals : List ℚ) (a b : ℚ) : ℚ :=
  if vals.count b > vals.count a ∨ (vals.count b = vals.count a ∧ b < a) then b else a

/-- `Series.mode()[0]`: the smallest among the values of maximal frequency
(pandas `mode` lists the modes in ascending order); `none` when there are no
present values, in which case the Python subscript `[0]` raises. -/
def mode0 (vals : List ℚ) : Option ℚ :=
  match vals.dedup with
  | [] => Option.none
  | c :: cs => some (cs.foldl (betterMode vals) c)

/-- The four imputation strategies of the `Missing Values Strategy` select
box other than `'None'` (with `'None'` selected the cleaning block is
skipped entirely). -/
inductive Strategy where
  | mean
  | median
  | mode
  | dropRows
deriving DecidableEq, Repr

/-- The fill value the loop body computes for one column under a strategy:
`df[col].mean()` / `df[col].median()` / `df[col].mode()[0]`; the
`'Drop Rows'` arm matches no branch of the loop body, hence no fill. -/
def statOpt : Strategy → List ℚ → Option ℚ
  | Strategy.mean, vals => meanOpt vals
  | Strategy.median, vals => medianOpt vals
  | Strategy.mode, vals => mode0 vals
  | Strategy.dropRows, _ => Option.none

/-- The fill value as a plain rational (meaningful when the column has a
present value, which makes `statOpt` return `some`). -/
def statValue (s : Strategy) (cells : List Cell) : ℚ :=
  (statOpt s (nums cells)).getD 0

/-- One iteration of `for col in numeric_cols:` on the current frame:
Mean/Median fill with the column statistic (`fillna(NaN)` on an all-missing
column changes nothing); Mode raises `KeyError: 0` when `mode()` is empty;
Drop Rows does nothing inside the loop. -/
def imputeStep (s : Strategy) (rows : List (List Cell)) (j : ℕ) :
    Except String (List (List Cell)) :=
  match s, statOpt s (nums (colCells rows j)) with
  | Strategy.mode, Option.none => Except.error "KeyError: 0"
  | _, Option.none => Except.ok rows
  | _, some v => Except.ok (fillAt j v rows)

/-- Positions of the numeric-dtype columns
(`df.select_dtypes(include='number').columns`, as positions; under the
unique-column-names invariant name-based and position-based indexing
agree). -/
def numericIdxs (t : Table) : List ℕ :=
  (List.range t.cols.length).filter (fun j => (t.cols.getD j ⟨"", false⟩).numeric)

/-- `df.dropna(subset=numeric_cols)`: keep exactly the rows with no missing
entry in any numeric column. -/
def dropMissingRows (J : List ℕ) (rows : List (List Cell)) : List (List Cell) :=
  rows.filter (fun r => J.all (fun j => !(r.getD j Cell.missing == Cell.missing)))

/-- Lines 72–80 of `app.py`: the per-column fill loop over the numeric
columns, then, for `'Drop Rows'`, `df.dropna(subset=numeric_cols)`.
A `KeyError` escaping the loop propagates (there is no `try` around it). -/
def imputeMissing (t : Table) (s : Strategy) : Except String Table :=
  match (numericIdxs t).foldlM (imputeStep s) t.rows with
  | Except.error e => Except.error e
  | Except.ok rows =>
      Except.ok ⟨t.cols, if s = Strategy.dropRows then dropMissingRows (numericIdxs t) rows
                         else rows⟩

/-- Lines 67–81 of `app.py`, the missing-value branch of
`handle_data_cleaning` for a strategy other than `'None'`: with no numeric
columns it warns `"No numeric columns to fill!"` and neither the frame nor
the session-state entry changes; otherwise the imputed frame is also written
back to `st.session_state` (the middle component models that write). -/
def handleMissingValues (t : Table) (s : Strategy) :
    Except String (Table × Option Table × List String) :=
  if numericIdxs t = [] then Except.ok (t, Option.none, ["No numeric columns to fill!"])
  else (imputeMissing t s).map (fun t' => (t', some t', []))

/-- `df.drop_duplicates()` row semantics: keep the first occurrence of each
row value, drop later identical rows, preserving order (pandas also treats
`NaN` as equal to `NaN` here, as structural equality on `Cell` does). -/
def dedupKeepFirst {α : Type} [DecidableEq α] : List α → List α
  | [] => []
  | x :: xs => x :: dedupKeepFirst (xs.filter (fun y => !(y == x)))
termination_by l => l.length
decreasing_by
  simp only [List.length_cons]
  exact Nat.lt_succ_of_le (xs.length_filter_le _)

/-- Line 56 of `app.py`: `df = df.drop_duplicates()`. -/
def removeDuplicates (t : Table) : Table :=
  ⟨t.cols, dedupKeepFirst t.rows⟩

/-- Spec-side formulation of §4.3 / claim C4, transcribed from the words
"drops rows that are fully identical to an earlier row, preserving the first
occurrence and original relative order": walk the rows keeping the list of
rows already seen earlier, dropping a row exactly when it is identical to
one of them. -/
def specDedupAux {α : Type} [DecidableEq α] (seen : List α) : List α → List α
  | [] => []
  | x :: xs => if x ∈ seen then specDedupAux seen xs else x :: specDedupAux (x :: seen) xs

/-- Spec-side duplicate removal on tables (see `specDedupAux`). -/
def specRemoveDuplicates (t : Table) : Table :=
  ⟨t.cols, specDedupAux [] t.rows⟩

/-- Lines 36–48 of `app.py`, `process_file`.  The uploaded file's name is a
Python string, modelled as `List Char`; its byte content is abstract (`α`),
and the two pandas parsers `pd.read_csv` / `pd.read_excel` are parameters
that either produce a `Table` or raise (modelled as `Except.error` carrying
the exception text `str(e)`).  The result is the returned `DataFrame`
(`none` standing for Python `None`) together with the `st.error` messages
shown; the `try`/`except` turns any parser exception into an error message,
so the function is total and never propagates an exception. -/
def processFile {α : Type} (readCsv readXlsx : α → Except (List Char) Table)
    (name : List Char) (content : α) : Option Table × List (List Char) :=
  if ".csv".toList.isSuffixOf name then
    match readCsv content with
    | Except.ok t => (some t, [])
    | Except.error e =>
        (Option.none, ["Error processing ".toList ++ name ++ ": ".toList ++ e])
  else if ".xlsx".toList.isSuffixOf name then
    match readXlsx content with
    | Except.ok t => (some t, [])
    | Except.error e =>
        (Option.none, ["Error processing ".toList ++ name ++ ": ".toList ++ e])
  else
    (Option.none, ["Unsupported file type: ".toList ++ name])

/-- Line 129 of `app.py`: `df = df[selected_cols]` — the frame narrowed to
the selected column names, in selection order.  Name lookup is
`findIdx` on the headers (first column of that name; names are unique by
the table invariant). -/
def project (t : Table) (sel : List String) : Table :=
  let idxs := sel.map (fun n => t.cols.findIdx (fun c => c.name == n))
  ⟨idxs.map (fun j => t.cols.getD j ⟨"", false⟩),
   t.rows.map (fun r => idxs.map (fun j => r.getD j Cell.missing))⟩

/-- The chart kinds of the `Chart Type` select box. -/
inductive ChartType where
  | bar
  | line
  | scatter
  | histogram
deriving DecidableEq, Repr

/-- What gets plotted: the data handed to the charting layer. -/
inductive Chart where
  | bar (data : Table)
  | line (data : Table)
  | scatter (data : Table)
  | histogram (cells : List Cell)
deriving DecidableEq, Repr

/-- `pd.api.types.is_numeric_dtype(df[n])`: the dtype flag of the column
named `n` (`false` when there is no such column). -/
def isNumericCol (t : Table) (n : String) : Bool :=
  match t.cols.find? (fun c => c.name == n) with
  | some c => c.numeric
  | Option.none => false

/-- Lines 144–153 of `app.py`: Bar/Line chart `df[[x, y]]` unconditionally;
Scatter charts `df[[x, y]]` only when both columns are numeric-dtyped and
otherwise produces no chart; Histogram plots the X column's distribution. -/
def renderChart (t : Table) (ct : ChartType) (x y : String) : Option Chart :=
  match ct with
  | ChartType.bar => some (Chart.bar (project t [x, y]))
  | ChartType.line => some (Chart.line (project t [x, y]))
  | ChartType.scatter =>
      if isNumericCol t x && isNumericCol t y then some (Chart.scatter (project t [x, y]))
      else Option.none
  | ChartType.histogram => some (Chart.histogram (colCells t.rows (t.cols.findIdx (fun c => c.name == x))))

/-- The two export formats of the `Convert to` radio. -/
inductive ExportFormat where
  | csv
  | excel
deriving DecidableEq, Repr

/-- The extension appended to the download name (line 167 / 171). -/
def fmtExt : ExportFormat → List Char
  | ExportFormat.csv => ".csv".toList
  | ExportFormat.excel => ".xlsx".toList

/-- Python `str.split('.')`: cut the character list at every `'.'`
(accumulator holds the current piece reversed). -/
def pySplitDotAux (acc : List Char) : List Char → List (List Char)
  | [] => [acc.reverse]
  | c :: cs => if c = '.' then acc.reverse :: pySplitDotAux [] cs else pySplitDotAux (c :: acc) cs

/-- Line 176 of `app.py`:
`f"converted_{file.name.split('.')[0]}{ext}"`. -/
def downloadName (name : List Char) (fmt : ExportFormat) : List Char :=
  "converted_".toList ++ (pySplitDotAux [] name).headD [] ++ fmtExt fmt

/-- Claim-side reading of §4.6 / claim C8: the original base name "with its
extension removed", i.e. everything before the *last* dot (the name itself
when it has no dot). -/
def stripExtension (name : List Char) : List Char :=
  if '.' ∈ name then ((name.reverse.dropWhile (fun c => !(c == '.'))).drop 1).reverse
  else name

/-- The download name claim C8 predicts: `converted_` + base name without
its extension + the new format's extension. -/
def claimDownloadName (name : List Char) (fmt : ExportFormat) : List Char :=
  "converted_".toList ++ stripExtension name ++ fmtExt fmt

/-! ## General helper lemmas about `List.set` / `List.getD` -/

theorem getD_set_self {α : Type} (l : List α) (j : ℕ) (v d : α) :
    (l.set j v).getD j d = if j < l.length then v else d := by
  rw [List.getD_eq_getElem?_getD, List.getElem?_set, if_pos rfl]
  split <;> simp [List.getD_eq_getElem?_getD]

theorem getD_set_ne {α : Type} (l : List α) {i j : ℕ} (h : i ≠ j) (v d : α) :
    (l.set i v).getD j d = l.getD j d := by
  rw [List.getD_eq_getElem?_getD, List.getElem?_set_ne h, ← List.getD_eq_getElem?_getD]

theorem lt_length_of_getD_ne {α : Type} {l : List α} {j : ℕ} {d : α}
    (h : l.getD j d ≠ d) : j < l.length := by
  by_contra hle
  rw [List.getD_eq_getElem?_getD, List.getElem?_eq_none (Nat.le_of_not_lt hle)] at h
  exact h rfl

/-! ## Column-level behaviour of the per-column fill -/

theorem colCells_fillAt_ne (rows : List (List Cell)) {i j : ℕ} (h : i ≠ j) (v : ℚ) :
    colCells (fillAt i v rows) j = colCells rows j := by
  simp only [colCells, fillAt, List.map_map]
  exact List.map_congr_left (fun r _ => getD_set_ne r h _ _)

theorem colCells_fillAt_self (rows : List (List Cell)) (j : ℕ) (v : ℚ)
    (hlen : ∀ r ∈ rows, j < r.length) :
    colCells (fillAt j v rows) j = (colCells rows j).map (fillCell v) := by
  simp only [colCells, fillAt, List.map_map]
  refine List.map_congr_left (fun r hr => ?_)
  show (r.set j (fillCell v (r.getD j Cell.missing))).getD j Cell.missing = _
  rw [getD_set_self, if_pos (hlen r hr)]
  rfl

theorem fillCell_of_ne_missing {v : ℚ} {c : Cell} (h : c ≠ Cell.missing) :
    fillCell v c = c := by
  cases c <;> simp [fillCell] at h ⊢

theorem colCells_fillAt_nomiss (rows : List (List Cell)) (j : ℕ) (v : ℚ)
    (hnm : Cell.missing ∉ colCells rows j) :
    colCells (fillAt j v rows) j = colCells rows j := by
  simp only [colCells, fillAt, List.map_map]
  refine List.map_congr_left (fun r hr => ?_)
  have hne : r.getD j Cell.missing ≠ Cell.missing := by
    intro hmiss
    have hmem : r.getD j Cell.missing ∈ colCells rows j :=
      List.mem_map_of_mem (fun r => r.getD j Cell.missing) hr
    rw [hmiss] at hmem
    exact hnm hmem
  show (r.set j (fillCell v (r.getD j Cell.missing))).getD j Cell.missing = r.getD j Cell.missing
  rw [fillCell_of_ne_missing hne, getD_set_self,
    if_pos (lt_length_of_getD_ne hne)]

theorem fillAt_length_eq {rows : List (List Cell)} {L : ℕ} (j : ℕ) (v : ℚ)
    (h : ∀ r ∈ rows, r.length = L) :
    ∀ r ∈ fillAt j v rows, r.length = L := by
  intro r hr
  obtain ⟨r0, hr0, rfl⟩ := List.mem_map.mp hr
  simpa [List.length_set] using h r0 hr0

/-! ## Claim C8: the download file name -/

theorem pySplitDot_headD (cs : List Char) :
    ∀ acc, (pySplitDotAux acc cs).headD [] =
      acc.reverse ++ cs.takeWhile (fun c => !(c == '.')) := by
  induction cs with
  | nil => intro acc; simp [pySplitDotAux]
  | cons c cs ih =>
      intro acc
      by_cases hc : c = '.'
      · subst hc; simp [pySplitDotAux, List.takeWhile_cons]
      · have h1 : pySplitDotAux acc (c :: cs) = pySplitDotAux (c :: acc) cs := by
          simp [pySplitDotAux, hc]
        rw [h1, ih, List.takeWhile_cons]
        simp [hc]

/-- C8 counterexample: for the uploaded name `a.b.csv` (base name `a.b`,
extension `.csv`) exporting to CSV, the program truncates at the *first*
dot and produces `converted_a.csv`, not the claimed
`converted_<base-without-extension><ext>` = `converted_a.b.csv`. -/
theorem C8_counterexample :
    downloadName "a.b.csv".toList ExportFormat.csv = "converted_a.csv".toList ∧
    downloadName "a.b.csv".toList ExportFormat.csv ≠
      claimDownloadName "a.b.csv".toList ExportFormat.csv ∧
    claimDownloadName "a.b.csv".toList ExportFormat.csv = "converted_a.b.csv".toList := by
  decide

/-- C8 (amended): for every uploaded file name and export format, the
download filename equals `converted_` followed by the original name
truncated at its first dot (everything from the first `.` on removed),
followed by the new format's extension. -/
theorem C8_amended_downloadName (name : List Char) (fmt : ExportFormat) :
    downloadName name fmt =
      "converted_".toList ++ name.takeWhile (fun c => !(c == '.')) ++ fmtExt fmt := by
  simp only [downloadName]
  rw [pySplitDot_headD name []]
  simp

/-! ## Claim C9: scatter requires numeric columns -/

/-- C9: for every table and every choice of X and Y columns, a Scatter
chart is produced exactly when both the X column and the Y column are
numeric-typed; otherwise no chart is produced. -/
theorem C9_scatter_requires_numeric (t : Table) (x y : String) :
    (renderChart t ChartType.scatter x y).isSome = true ↔
      (isNumericCol t x = true ∧ isNumericCol t y = true) := by
  by_cases hx : isNumericCol t x <;> by_cases hy : isNumericCol t y <;>
    simp [renderChart, hx, hy]

/-! ## Claim C5: the file ingestor dispatch and error trapping -/

theorem xlsx_not_csv {name : List Char} (h : ".xlsx".toList.isSuffixOf name = true) :
    ".csv".toList.isSuffixOf name = false := by
  by_contra hc
  rw [Bool.not_eq_false] at hc
  have h1 := List.isSuffixOf_iff_suffix.mp h
  have h2 := List.isSuffixOf_iff_suffix.mp hc
  rcases List.suffix_or_suffix_of_suffix h1 h2 with hs | hs
  · exact (by decide : ¬ (".xlsx".toList <:+ ".csv".toList)) hs
  · exact (by decide : ¬ (".csv".toList <:+ ".xlsx".toList)) hs

/-- C5: for every uploaded byte stream with a name: a name ending in
`.csv` is handed to the CSV parser, a name ending in `.xlsx` to the
spreadsheet parser; in both cases a parser success yields the table with no
error message while a parser exception is caught and reported with the file
name and underlying message, the caller receiving no table; all other names
yield no table and the unsupported-format error naming the file.  The
embedded function is total, so no exception propagates. -/
theorem C5_processFile_dispatch {α : Type} (readCsv readXlsx : α → Except (List Char) Table)
    (name : List Char) (content : α) :
    (".csv".toList.isSuffixOf name = true →
      processFile readCsv readXlsx name content =
        match readCsv content with
        | Except.ok t => (some t, [])
        | Except.error e =>
            (Option.none, ["Error processing ".toList ++ name ++ ": ".toList ++ e])) ∧
    (".xlsx".toList.isSuffixOf name = true →
      processFile readCsv readXlsx name content =
        match readXlsx content with
        | Except.ok t => (some t, [])
        | Except.error e =>
            (Option.none, ["Error processing ".toList ++ name ++ ": ".toList ++ e])) ∧
    (".csv".toList.isSuffixOf name = false → ".xlsx".toList.isSuffixOf name = false →
      processFile readCsv readXlsx name content =
        (Option.none, ["Unsupported file type: ".toList ++ name])) := by
  refine ⟨fun hc => ?_, fun hx => ?_, fun hc hx => ?_⟩
  · unfold processFile
    rw [if_pos hc]
  · unfold processFile
    have hc2 := xlsx_not_csv hx
    rw [if_neg (by rw [hc2]; exact Bool.false_ne_true), if_pos hx]
  · unfold processFile
    rw [if_neg (by rw [hc]; exact Bool.false_ne_true),
      if_neg (by rw [hx]; exact Bool.false_ne_true)]

/-- A one-row table used to instantiate the ingestor contract. -/
def tIngest : Table := ⟨[⟨"a", true⟩], [[Cell.num 1]]⟩

theorem C5_witness :
    processFile (fun _ : Unit => Except.ok tIngest) (fun _ => Except.error "boom".toList)
        "data.csv".toList () = (some tIngest, []) ∧
    processFile (fun _ : Unit => Except.ok tIngest) (fun _ => Except.error "boom".toList)
        "data.xlsx".toList () =
      (Option.none, ["Error processing ".toList ++ "data.xlsx".toList ++ ": ".toList ++
        "boom".toList]) ∧
    processFile (fun _ : Unit => Except.ok tIngest) (fun _ => Except.error "boom".toList)
        "data.txt".toList () =
      (Option.none, ["Unsupported file type: ".toList ++ "data.txt".toList]) :=
  ⟨(C5_processFile_dispatch _ _ _ _).1 (by decide),
   (C5_processFile_dispatch _ _ _ _).2.1 (by decide),
   (C5_processFile_dispatch _ _ _ _).2.2 (by decide) (by decide)⟩

/-! ## Claim C6: no numeric columns means no-op plus warning -/

/-- C6: for every table with no numeric columns and every imputation
strategy, the missing-value branch returns the table unchanged, writes
nothing to the session store, and warns the caller. -/
theorem C6_no_numeric_noop (t : Table) (s : Strategy)
    (h : ∀ c ∈ t.cols, c.numeric = false) :
    handleMissingValues t s =
      Except.ok (t, Option.none, ["No numeric columns to fill!"]) := by
  have hempty : numericIdxs t = [] := by
    rw [numericIdxs, List.filter_eq_nil_iff]
    intro j hj
    have hlt : j < t.cols.length := List.mem_range.mp hj
    have hmem : t.cols.getD j ⟨"", false⟩ ∈ t.cols := by
      rw [List.getD_eq_getElem _ _ hlt]
      exact List.getElem_mem hlt
    simp only [Bool.not_eq_true]
    exact h _ hmem
  rw [handleMissingValues, if_pos hempty]

/-- A table with a single non-numeric column. -/
def tTextOnly : Table := ⟨[⟨"label", false⟩], [[Cell.str "u"], [Cell.missing]]⟩

theorem C6_witness :
    handleMissingValues tTextOnly Strategy.mean =
      Except.ok (tTextOnly, Option.none, ["No numeric columns to fill!"]) :=
  C6_no_numeric_noop tTextOnly Strategy.mean (by decide)

/-! ## Claims C3 and C4: duplicate-row removal -/

theorem memDedupAuxLe {α : Type} [DecidableEq α] :
    ∀ (n : ℕ) (l : List α), l.length ≤ n → ∀ x, x ∈ dedupKeepFirst l → x ∈ l := by
  intro n
  induction n with
  | zero =>
      intro l hl x hx
      cases l with
      | nil => simp [dedupKeepFirst] at hx
      | cons a as => simp at hl
  | succ n ih =>
      intro l hl x hx
      cases l with
      | nil => simp [dedupKeepFirst] at hx
      | cons a as =>
          simp only [dedupKeepFirst] at hx
          rcases List.mem_cons.mp hx with rfl | hmem
          · exact List.mem_cons_self _ _
          · have has : as.length ≤ n := by
              simpa using Nat.lt_succ_iff.mp (Nat.lt_of_lt_of_le (Nat.lt_succ_self _)
                (by simpa using hl))
            have hlen : (as.filter (fun y => !(y == a))).length ≤ n :=
              le_trans (List.length_filter_le _ _) has
            exact List.mem_cons_of_mem _ (List.mem_of_mem_filter (ih _ hlen x hmem))

theorem mem_of_mem_dedupKeepFirst {α : Type} [DecidableEq α] {l : List α} {x : α}
    (h : x ∈ dedupKeepFirst l) : x ∈ l :=
  memDedupAuxLe l.length l (le_refl _) x h

theorem dedupKeepFirstIdemLe {α : Type} [DecidableEq α] :
    ∀ (n : ℕ) (l : List α), l.length ≤ n →
      dedupKeepFirst (dedupKeepFirst l) = dedupKeepFirst l := by
  intro n
  induction n with
  | zero =>
      intro l hl
      cases l with
      | nil => simp [dedupKeepFirst]
      | cons a as => simp at hl
  | succ n ih =>
      intro l hl
      cases l with
      | nil => simp [dedupKeepFirst]
      | cons a as =>
          simp only [dedupKeepFirst]
          have hfix : (dedupKeepFirst (as.filter (fun y => !(y == a)))).filter
              (fun y => !(y == a)) = dedupKeepFirst (as.filter (fun y => !(y == a))) := by
            refine List.filter_eq_self.mpr (fun y hy => ?_)
            exact (List.mem_filter.mp (mem_of_mem_dedupKeepFirst hy)).2
          rw [hfix]
          have has : as.length ≤ n := by simpa using Nat.succ_le_succ_iff.mp (by simpa using hl)
          rw [ih _ (le_trans (List.length_filter_le _ _) has)]

/-- C3: for every table, removing duplicate rows twice gives the same
table as removing them once. -/
theorem C3_removeDuplicates_idempotent (t : Table) :
    removeDuplicates (removeDuplicates t) = removeDuplicates t := by
  unfold removeDuplicates
  exact congrArg (Table.mk t.cols) (dedupKeepFirstIdemLe t.rows.length t.rows (le_refl _))

theorem specDedupAux_eq {α : Type} [DecidableEq α] (l : List α) :
    ∀ seen, specDedupAux seen l =
      dedupKeepFirst (l.filter (fun y => !(seen.contains y))) := by
  induction l with
  | nil => intro seen; simp [specDedupAux, dedupKeepFirst]
  | cons x xs ih =>
      intro seen
      by_cases hx : x ∈ seen
      · have hcontains : seen.contains x = true := List.elem_iff.mpr hx
        rw [List.filter_cons]
        simp only [hcontains, Bool.not_true, Bool.false_eq_true, if_false]
        simp [specDedupAux, hx, ih]
      · have hcontains : seen.contains x = false := by simpa using hx
        rw [List.filter_cons]
        simp only [hcontains, Bool.not_false, if_true]
        simp only [dedupKeepFirst, List.filter_filter]
        have hpred : xs.filter (fun y => !(y == x) && !(seen.contains y)) =
            xs.filter (fun y => !((x :: seen).contains y)) :=
          List.filter_congr (fun y _ => by
            by_cases hyx : y = x <;> simp [List.contains_cons, Bool.not_or, hyx])
        rw [hpred]
        simp [specDedupAux, hx, ih]

/-- C4: for every table, the implemented duplicate removal agrees with the
specification's description: drop exactly the rows fully identical to an
earlier row, keep the first occurrence of each distinct row, preserve the
relative order of what remains. -/
theorem C4_removeDuplicates_matches_spec (t : Table) :
    removeDuplicates t = specRemoveDuplicates t := by
  unfold removeDuplicates specRemoveDuplicates
  refine congrArg (Table.mk t.cols) ?_
  rw [specDedupAux_eq]
  simp

/-! ## Claim C7: projection onto all columns is the identity -/

theorem mapGetD_range {α : Type} (l : List α) (d : α) :
    (List.range l.length).map (fun j => l.getD j d) = l := by
  induction l with
  | nil => simp
  | cons a as ih =>
      rw [List.length_cons, List.range_succ_eq_map, List.map_cons, List.map_map]
      have htail : ((List.range as.length).map ((fun j => (a :: as).getD j d) ∘ Nat.succ)) = as :=
        calc ((List.range as.length).map ((fun j => (a :: as).getD j d) ∘ Nat.succ))
            = (List.range as.length).map (fun j => as.getD j d) :=
              List.map_congr_left (fun j _ => by simp [List.getD_cons_succ])
          _ = as := ih
      rw [htail, List.getD_cons_zero]

theorem findIdx_names {cols : List Col} (h : (cols.map Col.name).Nodup) :
    ∀ (i : ℕ) (hi : i < cols.length),
      cols.findIdx (fun c => c.name == cols[i].name) = i := by
  induction cols with
  | nil => intro i hi; simp at hi
  | cons c cs ih =>
      have h' := h
      rw [List.map_cons] at h'
      have hpair := List.nodup_cons.mp h'
      intro i hi
      cases i with
      | zero => simp [List.findIdx_cons]
      | succ i =>
          have hlt : i < cs.length := Nat.succ_lt_succ_iff.mp (by simpa using hi)
          have hmem : cs[i].name ∈ cs.map Col.name :=
            List.mem_map_of_mem Col.name (List.getElem_mem hlt)
          have hne : (c.name == (c :: cs)[i + 1].name) = false := by
            simp only [List.getElem_cons_succ]
            have : c.name ≠ cs[i].name := fun he => hpair.1 (he ▸ hmem)
            simpa using this
          rw [List.findIdx_cons, hne]
          simp only [cond_false, List.getElem_cons_succ]
          rw [ih hpair.2 i hlt]

theorem proj_idxs (cols : List Col) (h : (cols.map Col.name).Nodup) :
    (cols.map Col.name).map (fun n => cols.findIdx (fun c => c.name == n)) =
      List.range cols.length := by
  rw [List.map_map]
  refine List.ext_getElem (by simp) (fun i h1 h2 => ?_)
  have hi : i < cols.length := by simpa using h1
  rw [List.getElem_range, List.getElem_map]
  exact findIdx_names h i hi

/-- C7: projecting a table onto the full list of its column names, in their
original order, returns the table unchanged (given the table invariants:
unique column names and full-length rows). -/
theorem C7_project_full_selection (t : Table)
    (hnames : (t.cols.map Col.name).Nodup)
    (hwf : ∀ r ∈ t.rows, r.length = t.cols.length) :
    project t (t.cols.map Col.name) = t := by
  obtain ⟨cols, rows⟩ := t
  simp only [project] at *
  rw [proj_idxs cols hnames]
  congr 1
  · exact mapGetD_range cols _
  · calc rows.map (fun r => (List.range cols.length).map (fun j => r.getD j Cell.missing))
        = rows.map id :=
          List.map_congr_left (fun r hr => by
            rw [← hwf r hr]; exact mapGetD_range r _)
      _ = rows := List.map_id rows

/-- A concrete two-column table with distinct names and full rows. -/
def tTwoCol : Table := ⟨[⟨"a", true⟩, ⟨"b", false⟩], [[Cell.num 1, Cell.str "u"]]⟩

theorem C7_witness : project tTwoCol (tTwoCol.cols.map Col.name) = tTwoCol :=
  C7_project_full_selection tTwoCol (by decide) (by decide)

/-! ## Claims C1, C2, C10: missing-value imputation -/

theorem statOpt_isSome {s : Strategy}
    (hs : s = Strategy.mean ∨ s = Strategy.median ∨ s = Strategy.mode)
    {vals : List ℚ} (hv : vals ≠ []) : ∃ v, statOpt s vals = some v := by
  rcases hs with rfl | rfl | rfl
  · exact ⟨vals.sum / (vals.length : ℚ), by simp [statOpt, meanOpt, hv]⟩
  · simp only [statOpt, medianOpt]
    rw [if_neg hv]
    split
    · exact ⟨_, rfl⟩
    · exact ⟨_, rfl⟩
  · cases hd : vals.dedup with
    | nil =>
        exfalso
        cases vals with
        | nil => exact hv rfl
        | cons a as =>
            have hmem : a ∈ (a :: as).dedup := List.mem_dedup.mpr (List.mem_cons_self _ _)
            rw [hd] at hmem
            exact absurd hmem (List.not_mem_nil a)
    | cons c cs => exact ⟨cs.foldl (betterMode vals) c, by simp [statOpt, mode0, hd]⟩

theorem imputeStep_eq_fill {s : Strategy}
    (hs : s = Strategy.mean ∨ s = Strategy.median ∨ s = Strategy.mode)
    {rows : List (List Cell)} {j : ℕ} (hp : nums (colCells rows j) ≠ []) :
    imputeStep s rows j =
      Except.ok (fillAt j (statValue s (colCells rows j)) rows) := by
  obtain ⟨v, hv⟩ := statOpt_isSome hs hp
  rcases hs with rfl | rfl | rfl <;> simp [imputeStep, statValue, hv]

theorem foldPreserve (s : Strategy) (j : ℕ) :
    ∀ (J : List ℕ) (rows rows' : List (List Cell)),
      Cell.missing ∉ colCells rows j →
      J.foldlM (imputeStep s) rows = Except.ok rows' →
      colCells rows' j = colCells rows j := by
  intro J
  induction J with
  | nil =>
      intro rows rows' hnm hfold
      rw [List.foldlM_nil] at hfold
      injection hfold with h
      rw [← h]
  | cons i J ih =>
      intro rows rows' hnm hfold
      rw [List.foldlM_cons] at hfold
      cases hstep : imputeStep s rows i with
      | error e =>
          rw [hstep] at hfold
          exact Except.noConfusion hfold
      | ok rows1 =>
          rw [hstep] at hfold
          have hfold' : J.foldlM (imputeStep s) rows1 = Except.ok rows' := hfold
          have hcol : colCells rows1 j = colCells rows j := by
            unfold imputeStep at hstep
            split at hstep
            · exact Except.noConfusion hstep
            · injection hstep with h
              rw [← h]
            · injection hstep with h
              rw [← h]
              by_cases hij : i = j
              · subst hij
                exact colCells_fillAt_nomiss rows i _ hnm
              · exact colCells_fillAt_ne rows hij _
          have hnm1 : Cell.missing ∉ colCells rows1 j := by rw [hcol]; exact hnm
          rw [ih rows1 rows' hnm1 hfold', hcol]

theorem imputeMissing_ok_inv {t : Table} {s : Strategy} {t' : Table}
    (hok : imputeMissing t s = Except.ok t') :
    ∃ rows1, (numericIdxs t).foldlM (imputeStep s) t.rows = Except.ok rows1 ∧
      t' = ⟨t.cols, if s = Strategy.dropRows then dropMissingRows (numericIdxs t) rows1
                    else rows1⟩ := by
  unfold imputeMissing at hok
  cases hfold : (numericIdxs t).foldlM (imputeStep s) t.rows with
  | error e =>
      rw [hfold] at hok
      exact Except.noConfusion hok
  | ok rows1 =>
      rw [hfold] at hok
      refine ⟨rows1, rfl, ?_⟩
      injection hok with h
      exact h.symm

/-- C2 (amended): for every table, every numeric column `j` without missing
values, and every *fill* strategy (Mean, Median or Mode — Drop Rows
excluded), a successful imputation leaves column `j` unchanged. -/
theorem C2_amended_no_missing_unchanged (t : Table) (s : Strategy) (j : ℕ) (t' : Table)
    (hs : s = Strategy.mean ∨ s = Strategy.median ∨ s = Strategy.mode)
    (_hj : j ∈ numericIdxs t)
    (hnm : Cell.missing ∉ colCells t.rows j)
    (hok : imputeMissing t s = Except.ok t') :
    colCells t'.rows j = colCells t.rows j := by
  obtain ⟨rows1, hfold, ht'⟩ := imputeMissing_ok_inv hok
  have hne : s ≠ Strategy.dropRows := by rcases hs with rfl | rfl | rfl <;> simp
  rw [if_neg hne] at ht'
  subst ht'
  exact foldPreserve s j (numericIdxs t) t.rows rows1 hnm hfold

/-- A one-numeric-column table with no missing values. -/
def tNoMiss : Table := ⟨[⟨"a", true⟩], [[Cell.num 1]]⟩

theorem C2_witness :
    0 ∈ numericIdxs tNoMiss ∧ Cell.missing ∉ colCells tNoMiss.rows 0 ∧
    colCells tNoMiss.rows 0 = colCells tNoMiss.rows 0 :=
  ⟨by decide, by decide,
    C2_amended_no_missing_unchanged tNoMiss Strategy.mean 0 tNoMiss (Or.inl rfl)
      (by decide) (by decide) (by decide)⟩

/-- Two numeric columns; `b` (index 1) has no missing value, but `a` has
one, so `Drop Rows` removes the second row and `b` shrinks. -/
def tDropShrink : Table :=
  ⟨[⟨"a", true⟩, ⟨"b", true⟩], [[Cell.num 1, Cell.num 1], [Cell.missing, Cell.num 2]]⟩

/-- C2 counterexample: with the `DropRows` strategy — included in the
claim's "every imputation strategy" — a numeric column *without* missing
values does change: dropping the row whose *other* numeric column is
missing shrinks column `b` from `[1, 2]` to `[1]`. -/
theorem C2_counterexample :
    imputeMissing tDropShrink Strategy.dropRows =
      Except.ok ⟨tDropShrink.cols, [[Cell.num 1, Cell.num 1]]⟩ ∧
    Cell.missing ∉ colCells tDropShrink.rows 1 ∧
    colCells [[Cell.num 1, Cell.num 1]] 1 ≠ colCells tDropShrink.rows 1 :=
  ⟨by decide, by decide, by decide⟩

theorem foldImpute {s : Strategy}
    (hs : s = Strategy.mean ∨ s = Strategy.median ∨ s = Strategy.mode) (L : ℕ) :
    ∀ J : List ℕ, J.Nodup → (∀ j ∈ J, j < L) →
    ∀ rows : List (List Cell), (∀ r ∈ rows, r.length = L) →
    (∀ j ∈ J, nums (colCells rows j) ≠ []) →
    ∃ rows', J.foldlM (imputeStep s) rows = Except.ok rows' ∧
      (∀ r ∈ rows', r.length = L) ∧
      (∀ j ∈ J, colCells rows' j =
        (colCells rows j).map (fillCell (statValue s (colCells rows j)))) ∧
      (∀ j, j ∉ J → colCells rows' j = colCells rows j) := by
  intro J
  induction J with
  | nil =>
      intro _ _ rows hlen _
      exact ⟨rows, by rw [List.foldlM_nil]; rfl, hlen, by simp, fun j _ => rfl⟩
  | cons i J ih =>
      intro hnd hbound rows hlen hp
      have hnd' := List.nodup_cons.mp hnd
      have hpi : nums (colCells rows i) ≠ [] := hp i (List.mem_cons_self i J)
      set v := statValue s (colCells rows i) with hv
      have hstep := imputeStep_eq_fill hs hpi
      have hlen1 : ∀ r ∈ fillAt i v rows, r.length = L := fillAt_length_eq i v hlen
      have hcolsame : ∀ j ∈ J, colCells (fillAt i v rows) j = colCells rows j :=
        fun j hj => colCells_fillAt_ne rows (fun he => hnd'.1 (by rw [he]; exact hj)) v
      have hp1 : ∀ j ∈ J, nums (colCells (fillAt i v rows) j) ≠ [] := fun j hj => by
        rw [hcolsame j hj]; exact hp j (List.mem_cons_of_mem _ hj)
      obtain ⟨rows', hfold, hlen', hfilled, huntouched⟩ :=
        ih hnd'.2 (fun j hj => hbound j (List.mem_cons_of_mem _ hj)) (fillAt i v rows) hlen1 hp1
      refine ⟨rows', ?_, hlen', ?_, ?_⟩
      · rw [List.foldlM_cons, hstep]
        exact hfold
      · intro j hj
        rcases List.mem_cons.mp hj with rfl | hjJ
        · rw [huntouched j hnd'.1, colCells_fillAt_self rows j v
            (fun r hr => by rw [hlen r hr]; exact hbound j (List.mem_cons_self j J))]
        · rw [hfilled j hjJ, hcolsame j hjJ]
      · intro j hj
        have hji : i ≠ j := fun he => hj (he ▸ List.mem_cons_self i J)
        rw [huntouched j (fun hjJ => hj (List.mem_cons_of_mem _ hjJ)),
          colCells_fillAt_ne rows hji v]

/-- C1 (amended): for every well-formed table whose numeric columns each
contain at least one present value, imputation with Mean, Median or Mode
succeeds and replaces, in each numeric column independently, every missing
entry with that column's mean, median, or mode respectively — where the
mode used on ties is the *smallest* most-frequent value — and leaves every
other column untouched. -/
theorem C1_amended_impute (t : Table) (s : Strategy)
    (hs : s = Strategy.mean ∨ s = Strategy.median ∨ s = Strategy.mode)
    (hwf : ∀ r ∈ t.rows, r.length = t.cols.length)
    (hp : ∀ j ∈ numericIdxs t, nums (colCells t.rows j) ≠ []) :
    ∃ t', imputeMissing t s = Except.ok t' ∧ t'.cols = t.cols ∧
      (∀ j ∈ numericIdxs t, colCells t'.rows j =
        (colCells t.rows j).map (fillCell (statValue s (colCells t.rows j)))) ∧
      (∀ j, j ∉ numericIdxs t → colCells t'.rows j = colCells t.rows j) := by
  have hnd : (numericIdxs t).Nodup := (List.nodup_range _).filter _
  have hbound : ∀ j ∈ numericIdxs t, j < t.cols.length := fun j hj => by
    unfold numericIdxs at hj
    exact List.mem_range.mp (List.mem_filter.mp hj).1
  obtain ⟨rows', hfold, _, hfilled, huntouched⟩ :=
    foldImpute hs t.cols.length (numericIdxs t) hnd hbound t.rows hwf hp
  have hne : s ≠ Strategy.dropRows := by rcases hs with rfl | rfl | rfl <;> simp
  refine ⟨⟨t.cols, rows'⟩, ?_, rfl, hfilled, huntouched⟩
  simp [imputeMissing, hfold, hne]

/-- A numeric column with one present and one missing value. -/
def tOneMiss : Table := ⟨[⟨"a", true⟩], [[Cell.num 1], [Cell.missing]]⟩

theorem C1_witness :
    ∃ t', imputeMissing tOneMiss Strategy.mean = Except.ok t' ∧ t'.cols = tOneMiss.cols ∧
      (∀ j ∈ numericIdxs tOneMiss, colCells t'.rows j =
        (colCells tOneMiss.rows j).map
          (fillCell (statValue Strategy.mean (colCells tOneMiss.rows j)))) ∧
      (∀ j, j ∉ numericIdxs tOneMiss → colCells t'.rows j = colCells tOneMiss.rows j) :=
  C1_amended_impute tOneMiss Strategy.mean (Or.inl rfl) (by decide) (by decide)

/-- A numeric column whose most frequent values are tied: 3 appears first,
but 1 is the smaller of the two modes. -/
def tModeTie : Table :=
  ⟨[⟨"a", true⟩], [[Cell.num 3], [Cell.num 3], [Cell.num 1], [Cell.num 1], [Cell.missing]]⟩

/-- A numeric column that is entirely missing. -/
def tAllMissing : Table := ⟨[⟨"a", true⟩], [[Cell.missing]]⟩

/-- C1 counterexample.  First part: on the tied column `[3, 3, 1, 1, NaN]`
the code fills with `1` (pandas `mode()` is sorted ascending, so `[0]` is
the smallest mode), not with the first-most-frequent value `3` the claim
names.  Second part: with Mean on an all-missing numeric column, nothing is
replaced (the mean is `NaN`), so "every missing entry" is not replaced
either. -/
theorem C1_counterexample :
    imputeMissing tModeTie Strategy.mode =
      Except.ok ⟨tModeTie.cols,
        [[Cell.num 3], [Cell.num 3], [Cell.num 1], [Cell.num 1], [Cell.num 1]]⟩ ∧
    imputeMissing tModeTie Strategy.mode ≠
      Except.ok ⟨tModeTie.cols,
        [[Cell.num 3], [Cell.num 3], [Cell.num 1], [Cell.num 1], [Cell.num 3]]⟩ ∧
    imputeMissing tAllMissing Strategy.mean = Except.ok tAllMissing ∧
    Cell.missing ∈ colCells tAllMissing.rows 0 :=
  ⟨by decide, by decide, by decide, by decide⟩

/-- C10: on a table whose numeric column is entirely missing, the Mode
strategy hits `df[col].mode()[0]` with an empty `mode()` result: the
subscript raises an uncaught `KeyError`, which propagates out of
`handle_data_cleaning` (there is no `try` around it) instead of completing
or producing a user-visible message — the operation is not total. -/
theorem C10_mode_all_missing_raises :
    imputeMissing tAllMissing Strategy.mode = Except.error "KeyError: 0" ∧
    handleMissingValues tAllMissing Strategy.mode = Except.error "KeyError: 0" ∧
    (∀ t', imputeMissing tAllMissing Strategy.mode ≠ Except.ok t') :=
  ⟨by decide, by decide, fun t' h => Except.noConfusion ((by decide :
    imputeMissing tAllMissing Strategy.mode = Except.error "KeyError: 0") ▸ h)⟩

end DataSweeper
